import Mathlib

/-!
Shallow embedding of the graph-preparation pipeline of
`Code/Graph preparation/Wrangling2.ipynb` (the repository's data-wrangling
notebook). The notebook drives two related tables — an edge list of
(marker_id, follower_id) rows and a follower-bio table — through a sequence
of degree filters, attribute filters, text/language/location classification
and identity synchronisation, and finally enriches the edge list with
marker metadata.

The helper module `utils2.py` that the notebook calls is not part of the
staged sources, so each `utils2.*` function is modelled from the
specification's description of the corresponding component (its doc comment
says so and names the missing function).  Pandas operations written out in
the notebook itself (`drop_duplicates`, `groupby(...).transform('size')`,
`merge(..., how='left')`) are embedded directly from the notebook cells.

Tables are lists of rows; row order is list order (pandas keeps row order
under filtering).  Identifiers are opaque keys, modelled as `Nat`.
-/

namespace Wrangling2

/-- Opaque stable identity key (`marker_id` / `follower_id`; the CSVs load
them with dtype `object`, i.e. as opaque strings). -/
abbrev Ident := Nat

/-- One row of the raw edge list `markers_followers`:
a (marker_id, follower_id) "follows" pair. -/
structure Edge where
  marker : Ident
  follower : Ident
deriving DecidableEq

/-- Number of rows of `l` whose key (under `k`) is `x` — the group size of
`x` in a pandas `groupby` over the key column. -/
def keyCount {ρ : Type} (k : ρ → Ident) (l : List ρ) (x : Ident) : Nat :=
  (l.filter (fun r => decide (k r = x))).length

/-- Modelled from the spec: `utils2.filter_followers` is not in the staged
sources; §4.4 Edge-Set Filter describes it: "group edges by the chosen
endpoint, compute group size (after deduplication of identical edges),
retain only edges whose endpoint's group size ≥ threshold".  `k` selects the
endpoint role (follower or marker column), `t` is the inclusive minimum
degree. -/
def degFilter {ρ : Type} [DecidableEq ρ] (k : ρ → Ident) (t : Nat) (E : List ρ) : List ρ :=
  (E.dedup).filter (fun r => decide (t ≤ keyCount k E.dedup (k r)))

/-- Source: `utils2.filter_followers(df, follower_id_column, min_brands)`:
the degree filter keyed on the follower column of the edge list. -/
def filter_followers (E : List Edge) (min_brands : Nat) : List Edge :=
  degFilter (fun e => e.follower) min_brands E

/-- Modelled from the spec: `utils2.streamline_IDs(source, df_tofilter,
column)` is not in the staged sources; §4.6 Identity Synchronizer describes
it: "the dependent collection restricted to rows whose identity appears in
the source's identity set; order of dependent rows preserved; no new rows
introduced".  `f` and `g` read the shared identity column from the two row
types. -/
def streamline_IDs {σ ρ : Type} (f : σ → Ident) (g : ρ → Ident)
    (source : List σ) (df_tofilter : List ρ) : List ρ :=
  df_tofilter.filter (fun r => decide (g r ∈ source.map f))

theorem mem_degFilter_iff {ρ : Type} [DecidableEq ρ] (k : ρ → Ident)
    {t : Nat} {E : List ρ} {r : ρ} :
    r ∈ degFilter k t E ↔ r ∈ E.dedup ∧ t ≤ keyCount k E.dedup (k r) := by
  simp [degFilter, List.mem_filter]

theorem keyCount_pos_of_mem {ρ : Type} (k : ρ → Ident) {l : List ρ} {r : ρ}
    (h : r ∈ l) : 1 ≤ keyCount k l (k r) := by
  have hr : r ∈ l.filter (fun s => decide (k s = k r)) :=
    List.mem_filter.2 ⟨h, by simp⟩
  simpa [keyCount] using List.length_pos_of_mem hr

/-- An endpoint `x` appears among the keys of the deduplicated collection
iff it appears among the keys of the raw collection. -/
theorem mem_map_dedup_iff {ρ : Type} [DecidableEq ρ] (k : ρ → Ident)
    {E : List ρ} {x : Ident} : x ∈ E.dedup.map k ↔ x ∈ E.map k := by
  simp [List.mem_map, List.mem_dedup]

/-- An endpoint whose deduplicated degree reaches the threshold keeps all
its rows: its key appears in the filter's output. -/
theorem mem_degFilter_keys_of_le {ρ : Type} [DecidableEq ρ] (k : ρ → Ident)
    {t : Nat} {E : List ρ} {x : Ident} (hx : x ∈ E.map k)
    (hdeg : t ≤ keyCount k E.dedup x) : x ∈ (degFilter k t E).map k := by
  rcases List.mem_map.1 hx with ⟨r, hrE, rfl⟩
  refine List.mem_map.2 ⟨r, ?_, rfl⟩
  exact (mem_degFilter_iff k).2 ⟨List.mem_dedup.2 hrE, hdeg⟩

/-- C1: for every edge collection `E`, threshold `t` and endpoint role
(the key function `k`, marker or follower column), after the degree filter
— duplicate edges removed before any degree computation — every surviving
endpoint of the chosen role has deduplicated degree ≥ t, every removed
endpoint had deduplicated degree < t, and an endpoint with degree exactly t
is retained. -/
theorem degFilter_degree_spec {ρ : Type} [DecidableEq ρ] (k : ρ → Ident)
    (t : Nat) (E : List ρ) (x : Ident) :
    (∀ r ∈ degFilter k t E, t ≤ keyCount k E.dedup (k r)) ∧
    (x ∈ E.map k → x ∉ (degFilter k t E).map k → keyCount k E.dedup x < t) ∧
    (x ∈ E.map k → keyCount k E.dedup x = t → x ∈ (degFilter k t E).map k) := by
  refine ⟨fun r hr => ((mem_degFilter_iff k).1 hr).2, fun hx hout => ?_,
    fun hx ht => mem_degFilter_keys_of_le k hx (le_of_eq ht.symm)⟩
  by_contra hge
  exact hout (mem_degFilter_keys_of_le k hx (Nat.le_of_not_lt hge))

/-- Spec §8 scenario for the follower-degree filter: edges
[(M1,F1),(M1,F2),(M1,F3),(M1,F4),(M2,F1)] with min_brands = 2 keep exactly
F1's edges [(M1,F1),(M2,F1)]. -/
theorem filter_followers_scenario :
    filter_followers [⟨1, 1⟩, ⟨1, 2⟩, ⟨1, 3⟩, ⟨1, 4⟩, ⟨2, 1⟩] 2 =
      [⟨1, 1⟩, ⟨2, 1⟩] := by decide

/-- Rows of the synchronised table are exactly the dependent rows whose
identity appears in the source's identity set. -/
theorem mem_streamline_iff {σ ρ : Type} (f : σ → Ident) (g : ρ → Ident)
    (S : List σ) (D : List ρ) (r : ρ) :
    r ∈ streamline_IDs f g S D ↔ r ∈ D ∧ g r ∈ S.map f := by
  simp [streamline_IDs, List.mem_filter]

/-- The synchronised table is a sublist of the dependent table: dependent
row order is preserved and no new rows are introduced. -/
theorem streamline_sublist {σ ρ : Type} (f : σ → Ident) (g : ρ → Ident)
    (S : List σ) (D : List ρ) : (streamline_IDs f g S D).Sublist D :=
  List.filter_sublist D

/-- Synchronising twice against the same source changes nothing. -/
theorem streamline_idem {σ ρ : Type} (f : σ → Ident) (g : ρ → Ident)
    (S : List σ) (D : List ρ) :
    streamline_IDs f g S (streamline_IDs f g S D) = streamline_IDs f g S D := by
  apply List.filter_eq_self.2
  intro r hr
  exact (List.mem_filter.1 hr).2

/-- C2: the Identity Synchronizer returns exactly the rows of the dependent
collection whose identity appears in the source's identity set, preserves
the dependent row order, introduces no new rows, and is idempotent. -/
theorem streamline_IDs_spec {σ ρ : Type} (f : σ → Ident) (g : ρ → Ident)
    (S : List σ) (D : List ρ) :
    (∀ r, r ∈ streamline_IDs f g S D ↔ r ∈ D ∧ g r ∈ S.map f) ∧
    (streamline_IDs f g S D).Sublist D ∧
    streamline_IDs f g S (streamline_IDs f g S D) = streamline_IDs f g S D :=
  ⟨fun r => mem_streamline_iff f g S D r, streamline_sublist f g S D,
    streamline_idem f g S D⟩

/-! ### Free-text machinery: substring matching, entity decoding,
emoji/control stripping, whitespace collapsing.  Text is a `List Char`. -/

/-- Source: `startsWith p s`: `p` is an initial segment of `s`. -/
def startsWith : List Char → List Char → Bool
  | [], _ => true
  | _ :: _, [] => false
  | p :: ps, c :: cs => p == c && startsWith ps cs

/-- Source: `occursIn p s`: `p` occurs in `s` as a contiguous substring. -/
def occursIn (p : List Char) : List Char → Bool
  | [] => p.isEmpty
  | c :: cs => startsWith p (c :: cs) || occursIn p cs

theorem startsWith_iff (p s : List Char) :
    startsWith p s = true ↔ ∃ t, s = p ++ t := by
  induction p generalizing s with
  | nil => simp [startsWith]
  | cons a ps ih =>
    cases s with
    | nil => simp [startsWith]
    | cons c cs =>
      simp only [startsWith, Bool.and_eq_true, beq_iff_eq, ih]
      constructor
      · rintro ⟨rfl, t, rfl⟩
        exact ⟨t, rfl⟩
      · rintro ⟨t, ht⟩
        cases ht
        exact ⟨rfl, t, rfl⟩

theorem occursIn_iff (p s : List Char) :
    occursIn p s = true ↔ ∃ u v, s = u ++ p ++ v := by
  induction s with
  | nil =>
    simp only [occursIn, List.isEmpty_iff]
    constructor
    · rintro rfl
      exact ⟨[], [], rfl⟩
    · rintro ⟨u, v, huv⟩
      rcases List.append_eq_nil.1 (List.append_eq_nil.1 huv.symm).1 with ⟨-, h2⟩
      exact h2
  | cons c cs ih =>
    simp only [occursIn, Bool.or_eq_true, startsWith_iff, ih]
    constructor
    · rintro (⟨t, ht⟩ | ⟨u, v, huv⟩)
      · exact ⟨[], t, by simp [ht]⟩
      · exact ⟨c :: u, v, by simp [huv]⟩
    · rintro ⟨u, v, huv⟩
      cases u with
      | nil =>
        left
        exact ⟨v, by simpa using huv⟩
      | cons b bs =>
        right
        rw [List.cons_append, List.cons_append] at huv
        cases huv
        exact ⟨bs, v, rfl⟩

/-- A pattern occurring in the tail occurs in the whole list. -/
theorem occursIn_of_occursIn_tail {p : List Char} {c : Char} {cs : List Char}
    (h : occursIn p cs = true) : occursIn p (c :: cs) = true := by
  simp [occursIn, h]

/-- Lowercasing, as the notebook's `lang['location'].str.lower()` and the
lowercasing of the gazetteer names. -/
def lowerChars (s : List Char) : List Char := s.map Char.toLower

/-- Modelled from the spec: `utils2.assign_country(x, city_names)` is not in
the staged sources; §4.3 Location Classifier describes it: true iff the
(already lowercase-normalised) location string contains some reference place
name as a substring, false otherwise, including when the location is absent
(a missing `location` cell). -/
def assign_country (loc : Option (List Char)) (city_names : List (List Char)) : Bool :=
  match loc with
  | none => false
  | some s => city_names.any (fun c => occursIn c s)

/-- The notebook lowercases the location column and the gazetteer before
calling `utils2.assign_country`; this is that composite per-row classifier
(country flag: `true` = target country France). -/
def location_flag (city_names : List (List Char)) (loc : Option (List Char)) : Bool :=
  assign_country (loc.map lowerChars) (city_names.map lowerChars)

/-- C6: the Location Classifier returns `true` exactly when the
lowercase-normalised location string contains some lowercased reference
place name as a contiguous substring, and an absent location string always
yields "not in target country" (`false`), never an undetermined outcome. -/
theorem assign_country_spec (city_names : List (List Char)) :
    location_flag city_names none = false ∧
    (∀ s : List Char, location_flag city_names (some s) = true ↔
      ∃ c ∈ city_names, ∃ u v, lowerChars s = u ++ lowerChars c ++ v) := by
  constructor
  · rfl
  · intro s
    show (List.map lowerChars city_names).any (fun c => occursIn c (lowerChars s)) =
        true ↔ _
    simp only [List.any_eq_true, List.mem_map]
    constructor
    · rintro ⟨c, ⟨c0, hc0, rfl⟩, hocc⟩
      rcases (occursIn_iff _ _).1 hocc with ⟨u, v, huv⟩
      exact ⟨c0, hc0, u, v, huv⟩
    · rintro ⟨c0, hc0, u, v, huv⟩
      exact ⟨lowerChars c0, ⟨c0, hc0, rfl⟩, (occursIn_iff _ _).2 ⟨u, v, huv⟩⟩

/-- Spec §8 scenario: location "Paris, France" with gazetteer containing
"paris" is classified as target-country. -/
theorem assign_country_scenario :
    location_flag [['p', 'a', 'r', 'i', 's']]
      (some ['P', 'a', 'r', 'i', 's', ',', ' ', 'F', 'r', 'a', 'n', 'c', 'e']) = true := by
  decide

/-! ### Text Normalizer (spec §4.1)

`utils2.process_description(df, column)` is not in the staged sources; the
spec describes the normalisation steps, order-sensitive: (a) decode HTML
character entities; (b) repair mis-encoded byte sequences (mojibake);
(c) strip emoji and non-printable control characters; (d) collapse
redundant whitespace.  Steps (a) and (b) are table-driven single-pass
left-to-right replacements (as `html.unescape` and an ftfy-style fixer
perform them); the tables below carry representative entries. -/

/-- HTML character-entity decoding table (pattern, replacement). -/
def entity_table : List (List Char × List Char) :=
  [(['&', 'a', 'm', 'p', ';'], ['&']),
   (['&', 'l', 't', ';'], ['<']),
   (['&', 'g', 't', ';'], ['>']),
   (['&', 'q', 'u', 'o', 't', ';'], ['"']),
   (['&', 'n', 'b', 's', 'p', ';'], [' '])]

/-- Mojibake repair table: UTF-8 bytes mis-decoded as Latin-1, mapped back
to the intended character (pattern, replacement). -/
def mojibake_table : List (List Char × List Char) :=
  [(['Ã', '©'], ['é']),
   (['Ã', '¨'], ['è']),
   (['Ã', '§'], ['ç']),
   (['Ã', '´'], ['ô'])]

/-- First table rule whose (nonempty) pattern is an initial segment of `s`. -/
def findRule (tbl : List (List Char × List Char)) (s : List Char) :
    Option (List Char × List Char) :=
  tbl.find? (fun pr => !pr.1.isEmpty && startsWith pr.1 s)

/-- Single left-to-right replacement pass, fuelled by the input length:
at each position the first matching rule fires, its replacement is emitted
verbatim (not rescanned) and scanning resumes after the matched pattern. -/
def rewriteFuel (tbl : List (List Char × List Char)) : Nat → List Char → List Char
  | 0, s => s
  | _ + 1, [] => []
  | n + 1, c :: cs =>
    match findRule tbl (c :: cs) with
    | some pr => pr.2 ++ rewriteFuel tbl n ((c :: cs).drop pr.1.length)
    | none => c :: rewriteFuel tbl n cs

/-- One full replacement pass over `s`. -/
def rewriteTable (tbl : List (List Char × List Char)) (s : List Char) : List Char :=
  rewriteFuel tbl s.length s

/-- Non-printable control characters (C0 range and DEL). -/
def isControlChar (c : Char) : Bool :=
  decide (c.toNat < 32) || decide (c.toNat = 127)

/-- Emoji and emoji-related code points (pictographs, misc symbols,
variation selectors, zero-width joiner). -/
def isEmojiChar (c : Char) : Bool :=
  (decide (0x1F000 ≤ c.toNat) && decide (c.toNat ≤ 0x1FAFF)) ||
  (decide (0x2600 ≤ c.toNat) && decide (c.toNat ≤ 0x27BF)) ||
  (decide (0xFE00 ≤ c.toNat) && decide (c.toNat ≤ 0xFE0F)) ||
  decide (c.toNat = 0x200D)

/-- Step (c): strip emoji and control characters. -/
def strip_special (s : List Char) : List Char :=
  s.filter (fun c => !(isControlChar c || isEmojiChar c))

/-- Whitespace characters subject to collapsing. -/
def isWSChar (c : Char) : Bool :=
  c == ' ' || c == '\t' || c == '\n' || c == '\r'

/-- Step (d): collapse runs of whitespace to a single space. -/
def collapse_ws : List Char → List Char
  | [] => []
  | [c] => if isWSChar c then [' '] else [c]
  | c :: d :: cs =>
    if isWSChar c && isWSChar d then collapse_ws (d :: cs)
    else (if isWSChar c then ' ' else c) :: collapse_ws (d :: cs)

/-- Modelled from the spec: the text-level normaliser inside
`utils2.process_description` (not in the staged sources), steps (a)–(d) of
§4.1 in order.  Pure and deterministic by construction. -/
def process_description_text (s : List Char) : List Char :=
  collapse_ws (strip_special (rewriteTable mojibake_table (rewriteTable entity_table s)))

/-- Per-field policy of §4.1/§7: an absent bio stays an absent marker, it is
never conflated with an empty string. -/
def clean_description (o : Option (List Char)) : Option (List Char) :=
  o.map process_description_text

/-- A replacement pass leaves a string containing no pattern of the table
unchanged, whatever the fuel. -/
theorem rewriteFuel_eq_self {tbl : List (List Char × List Char)}
    (n : Nat) (s : List Char)
    (h : ∀ pr ∈ tbl, occursIn pr.1 s = false) : rewriteFuel tbl n s = s := by
  induction n generalizing s with
  | zero => rfl
  | succ n ih =>
    cases s with
    | nil => rfl
    | cons c cs =>
      have hnone : findRule tbl (c :: cs) = none := by
        cases hf : findRule tbl (c :: cs) with
        | none => rfl
        | some pr =>
          have hmem : pr ∈ tbl := List.mem_of_find?_eq_some hf
          have hpred := List.find?_some hf
          simp only [Bool.and_eq_true, Bool.not_eq_true'] at hpred
          have h2 : occursIn pr.1 (c :: cs) = true := by
            simp [occursIn, hpred.2]
          rw [h pr hmem] at h2
          cases h2
      have htail : ∀ pr ∈ tbl, occursIn pr.1 cs = false := by
        intro pr hpr
        cases hocc : occursIn pr.1 cs with
        | false => rfl
        | true =>
          have h2 := occursIn_of_occursIn_tail (c := c) hocc
          rw [h pr hpr] at h2
          cases h2
      simp [rewriteFuel, hnone, ih cs htail]

theorem rewriteTable_eq_self {tbl : List (List Char × List Char)}
    {s : List Char} (h : ∀ pr ∈ tbl, occursIn pr.1 s = false) :
    rewriteTable tbl s = s :=
  rewriteFuel_eq_self s.length s h

/-- Every character of the collapsed string comes from the input or is the
single space that replaces a whitespace run. -/
theorem mem_collapse_ws {c : Char} : ∀ {s : List Char},
    c ∈ collapse_ws s → c ∈ s ∨ c = ' '
  | [], h => absurd h (List.not_mem_nil c)
  | [d], h => by
    by_cases hd : isWSChar d = true <;> simp [collapse_ws, hd] at h <;> simp [h]
  | d :: e :: cs, h => by
    by_cases hde : (isWSChar d && isWSChar e) = true
    · simp only [collapse_ws, hde, if_pos] at h
      rcases mem_collapse_ws h with h' | h'
      · exact Or.inl (List.mem_cons_of_mem d h')
      · exact Or.inr h'
    · simp only [collapse_ws, hde, if_neg, Bool.not_eq_true] at h
      rcases List.mem_cons.1 h with h' | h'
      · by_cases hd : isWSChar d = true
        · simp only [hd, if_pos] at h'
          exact Or.inr h'
        · simp only [hd, if_neg, Bool.not_eq_true] at h'
          exact Or.inl (h' ▸ List.mem_cons_self d (e :: cs))
      · rcases mem_collapse_ws h' with h'' | h''
        · exact Or.inl (List.mem_cons_of_mem d h'')
        · exact Or.inr h''

/-- Collapsing a list headed by a non-whitespace character keeps that head. -/
theorem collapse_ws_cons_head {d : Char} (cs : List Char)
    (hd : isWSChar d = false) : ∃ t, collapse_ws (d :: cs) = d :: t := by
  cases cs with
  | nil => exact ⟨[], by simp [collapse_ws, hd]⟩
  | cons e cs => exact ⟨collapse_ws (e :: cs), by simp [collapse_ws, hd]⟩

/-- Canonical whitespace form: every whitespace character is the plain
space, and no two whitespace characters are adjacent. -/
def ws_canon : List Char → Bool
  | [] => true
  | [c] => !isWSChar c || c == ' '
  | c :: d :: cs =>
    (!isWSChar c || c == ' ') && !(isWSChar c && isWSChar d) && ws_canon (d :: cs)

theorem ws_canon_collapse_ws : ∀ s : List Char, ws_canon (collapse_ws s) = true
  | [] => rfl
  | [c] => by
    by_cases hc : isWSChar c = true <;> simp [collapse_ws, hc, ws_canon]
  | c :: d :: cs => by
    by_cases hcd : (isWSChar c && isWSChar d) = true
    · simpa [collapse_ws, hcd] using ws_canon_collapse_ws (d :: cs)
    · have ih := ws_canon_collapse_ws (d :: cs)
      simp only [collapse_ws, hcd, if_neg, Bool.not_eq_true]
      by_cases hc : isWSChar c = true
      · have hd : isWSChar d = false := by
          cases hdv : isWSChar d with
          | false => rfl
          | true => simp [hc, hdv] at hcd
        rcases collapse_ws_cons_head cs hd with ⟨t, ht⟩
        rw [ht] at ih ⊢
        simp [ws_canon, hc, hd, ih]
      · rcases hrest : collapse_ws (d :: cs) with _ | ⟨f, fs⟩
        · simp [hrest, ws_canon, hc]
        · rw [hrest] at ih
          simp only [hc, if_neg, Bool.not_eq_true]
          simp [ws_canon, hc, ih]

theorem collapse_ws_of_canon : ∀ s : List Char, ws_canon s = true → collapse_ws s = s
  | [], _ => rfl
  | [c], h => by
    simp only [ws_canon, Bool.or_eq_true, Bool.not_eq_true', beq_iff_eq] at h
    rcases h with h | h
    · simp [collapse_ws, h]
    · subst h
      simp [collapse_ws, isWSChar]
  | c :: d :: cs, h => by
    simp only [ws_canon, Bool.and_eq_true, Bool.not_eq_true'] at h
    obtain ⟨⟨hc, hcd⟩, hrest⟩ := h
    have ih := collapse_ws_of_canon (d :: cs) hrest
    simp only [collapse_ws, hcd, if_neg, Bool.false_eq_true, not_false_iff, ih]
    simp only [Bool.or_eq_true, Bool.not_eq_true', beq_iff_eq] at hc
    rcases hc with hc | hc
    · simp [hc]
    · subst hc
      rw [ite_self]

/-- The stripped-and-collapsed text contains no emoji or control character:
collapsing only keeps input characters or inserts plain spaces. -/
theorem strip_special_collapse (y : List Char) :
    strip_special (collapse_ws (strip_special y)) = collapse_ws (strip_special y) := by
  apply List.filter_eq_self.2
  intro c hc
  rcases mem_collapse_ws hc with hmem | hsp
  · exact (List.mem_filter.1 hmem).2
  · subst hsp
    decide

/-- C8 (amended): the Text Normalizer is pure and deterministic, maps an
absent input to the absent marker (never an empty string), and is
idempotent on every input whose normalised form contains no further
entity-decode or mojibake-repair pattern.  (Unconditional idempotence fails:
see the counterexample, forced by single-pass entity decoding.) -/
theorem process_description_spec (x : List Char)
    (h : ∀ pr ∈ entity_table ++ mojibake_table,
      occursIn pr.1 (process_description_text x) = false) :
    clean_description none = none ∧
    process_description_text (process_description_text x) =
      process_description_text x := by
  refine ⟨rfl, ?_⟩
  have hE : rewriteTable entity_table (process_description_text x) =
      process_description_text x :=
    rewriteTable_eq_self (fun pr hpr => h pr (List.mem_append_left _ hpr))
  have hM : rewriteTable mojibake_table (process_description_text x) =
      process_description_text x :=
    rewriteTable_eq_self (fun pr hpr => h pr (List.mem_append_right _ hpr))
  have hS : strip_special (process_description_text x) = process_description_text x :=
    strip_special_collapse (rewriteTable mojibake_table (rewriteTable entity_table x))
  have hW : collapse_ws (process_description_text x) = process_description_text x :=
    collapse_ws_of_canon (process_description_text x)
      (ws_canon_collapse_ws (strip_special (rewriteTable mojibake_table
        (rewriteTable entity_table x))))
  show collapse_ws (strip_special (rewriteTable mojibake_table
    (rewriteTable entity_table (process_description_text x)))) =
      process_description_text x
  rw [hE, hM, hS, hW]

/-- C8 counterexample: on the text "&amp;lt;" the normaliser is not
idempotent — the first pass decodes "&amp;" and leaves "&lt;", which the
second pass decodes further to "<".  Single-pass HTML-entity decoding
contradicts unconditional idempotence. -/
theorem process_description_not_idempotent :
    ¬ (process_description_text (process_description_text
        ['&', 'a', 'm', 'p', ';', 'l', 't', ';']) =
      process_description_text ['&', 'a', 'm', 'p', ';', 'l', 't', ';']) := by
  decide

theorem process_description_spec_witness :
    (∀ pr ∈ entity_table ++ mojibake_table,
      occursIn pr.1 (process_description_text ['h', 'i']) = false) ∧
    (clean_description none = none ∧
      process_description_text (process_description_text ['h', 'i']) =
        process_description_text ['h', 'i']) :=
  ⟨by decide, process_description_spec ['h', 'i'] (by decide)⟩

/-! ### Language Classifier (spec §4.2) -/

/-- Modelled from the spec: the per-text core of
`utils2.add_and_detect_language` (not in the staged sources).  The
underlying `langdetect` detector is an oracle `d` taking the seed and the
text; it either returns a language code or fails (`LangDetectException`, as
it does on empty/very-short/symbol-only text).  The wrapper catches the
failure and maps it — like an absent text — to the explicit
"undetermined" outcome instead of raising. -/
def detect_language (d : Nat → List Char → Except Unit String) (seed : Nat)
    (text : Option (List Char)) : String :=
  match text with
  | none => "undetermined"
  | some t =>
    match d seed t with
    | Except.ok code => code
    | Except.error _ => "undetermined"

/-- C7: the Language Classifier is total — for absent text and for every
text on which the underlying detector fails (empty/very-short/symbol-only
input raises `LangDetectException`) it returns the explicit "undetermined"
outcome rather than failing, and for every input it returns either a
detector language code or "undetermined". -/
theorem add_and_detect_language_spec (d : Nat → List Char → Except Unit String)
    (seed : Nat) (text : Option (List Char)) :
    (text = none → detect_language d seed text = "undetermined") ∧
    (∀ t, text = some t → d seed t = Except.error () →
      detect_language d seed text = "undetermined") ∧
    (detect_language d seed text = "undetermined" ∨
      ∃ t code, text = some t ∧ d seed t = Except.ok code ∧
        detect_language d seed text = code) := by
  refine ⟨fun h => by rw [h]; rfl, fun t ht he => ?_, ?_⟩
  · subst ht
    simp [detect_language, he]
  · cases text with
    | none => exact Or.inl rfl
    | some t =>
      cases hd : d seed t with
      | error u => exact Or.inl (by simp [detect_language, hd])
      | ok code => exact Or.inr ⟨t, code, rfl, hd, by simp [detect_language, hd]⟩

/-! ### Row types of the two tables and the marker-metadata table -/

/-- One row of the follower-bio table `followers_bios`: identity, free-text
fields, numeric attributes (float columns whose missing values are `none`),
and the columns the pipeline adds (`description_cleantext`, `language`,
`country`). -/
structure Bio where
  follower_id : Ident
  description : Option (List Char) := none
  location : Option (List Char) := none
  tweets : Option Nat := none
  followers : Option Nat := none
  description_cleantext : Option (List Char) := none
  language : Option String := none
  country : Bool := false
deriving DecidableEq

/-- One row of the marker-metadata table `cat_id` (the Excel categories
merged with the marker bios): marker identity, twitter name, category
label, the marker's own global follower count. -/
structure Cat where
  marker_id : Ident
  twitter_name : List Char := []
  type : List Char := []
  followers : Nat := 0
deriving DecidableEq

/-- Source: `utils2.process_description(df, 'description')`: adds the cleaned-text
column, leaving absent bios absent. -/
def process_description (B : List Bio) : List Bio :=
  B.map (fun b => { b with description_cleantext := clean_description b.description })

/-- Source: `utils2.add_and_detect_language(df, 'description_cleantext', seed)`:
adds the language column. -/
def add_and_detect_language (d : Nat → List Char → Except Unit String)
    (seed : Nat) (B : List Bio) : List Bio :=
  B.map (fun b =>
    { b with language := some (detect_language d seed b.description_cleantext) })

/-- The notebook's location-classification cell: lowercase the location
column and apply `utils2.assign_country` against the lowercased gazetteer,
writing the country flag. -/
def assign_country_df (city_names : List (List Char)) (B : List Bio) : List Bio :=
  B.map (fun b => { b with country := location_flag city_names b.location })

/-- Modelled from the spec: `utils2.filter_by_tweets_and_followers(df,
min_followers, min_tweets)` is not in the staged sources; §4.5 Attribute
Filter describes it: keep rows whose numeric column values reach the
inclusive thresholds, rows with missing values fail the filter. -/
def filter_by_tweets_and_followers (B : List Bio)
    (min_followers min_tweets : Nat) : List Bio :=
  B.filter (fun b =>
    match b.followers, b.tweets with
    | some fo, some tw => decide (min_followers ≤ fo) && decide (min_tweets ≤ tw)
    | _, _ => false)

/-- Spec §8 scenario: tweets [50, 150] with min_tweets = 100 keeps only the
second row. -/
theorem filter_by_tweets_scenario :
    filter_by_tweets_and_followers
      [{ follower_id := 1, tweets := some 50, followers := some 30 },
       { follower_id := 2, tweets := some 150, followers := some 30 }] 0 100 =
      [{ follower_id := 2, tweets := some 150, followers := some 30 }] := by
  decide

/-! ### Edge Enrichment (spec §4.8, notebook section 4)

`cat_id = cat_id.drop_duplicates(subset='marker_id')` then
`edgelist.merge(cat_id[...], on='marker_id', how='left')`, with a
`streamline_IDs` on the marker column in between. -/

/-- pandas `drop_duplicates(subset=key, keep='first')`: keep the first row
of each key. -/
def drop_duplicates_by {ρ : Type} (k : ρ → Ident) : List ρ → List ρ
  | [] => []
  | r :: rs => r :: drop_duplicates_by k (rs.filter (fun s => !decide (k s = k r)))
termination_by l => l.length
decreasing_by
  simp only [List.length_cons]
  exact Nat.lt_succ_of_le (List.length_filter_le _ _)

/-- The output rows a pandas left merge produces for one left row `e`:
one row per matching right row, or a single NaN-padded row when no right
row matches. -/
def merge_one {ε μ : Type} (ke : ε → Ident) (km : μ → Ident) (M : List μ)
    (e : ε) : List (ε × Option μ) :=
  match M.filter (fun m => decide (km m = ke e)) with
  | [] => [(e, none)]
  | ms => ms.map (fun m => (e, some m))

/-- pandas `left.merge(right, on=key, how='left')`: every left row paired
with each matching right row, NaN-padded when unmatched, left order kept. -/
def merge_left {ε μ : Type} (ke : ε → Ident) (km : μ → Ident) (M : List μ) :
    List ε → List (ε × Option μ)
  | [] => []
  | e :: es => merge_one ke km M e ++ merge_left ke km M es

theorem merge_one_map_fst {ε μ : Type} (ke : ε → Ident) (km : μ → Ident)
    (M : List μ) (e : ε)
    (h : (M.filter (fun m => decide (km m = ke e))).length ≤ 1) :
    (merge_one ke km M e).map Prod.fst = [e] := by
  unfold merge_one
  rcases hM : M.filter (fun m => decide (km m = ke e)) with _ | ⟨m, ms⟩
  · rfl
  · cases ms with
    | nil => rfl
    | cons m2 ms2 =>
      rw [hM] at h
      simp at h

theorem merge_left_map_fst {ε μ : Type} (ke : ε → Ident) (km : μ → Ident)
    (M : List μ) (E : List ε)
    (h : ∀ x, (M.filter (fun m => decide (km m = x))).length ≤ 1) :
    (merge_left ke km M E).map Prod.fst = E := by
  induction E with
  | nil => rfl
  | cons e es ih =>
    simp only [merge_left, List.map_append, ih]
    rw [merge_one_map_fst ke km M e (h (ke e))]
    rfl

theorem drop_duplicates_by_sublist {ρ : Type} (k : ρ → Ident) :
    ∀ l : List ρ, (drop_duplicates_by k l).Sublist l
  | [] => by simp [drop_duplicates_by]
  | r :: rs => by
    rw [drop_duplicates_by]
    exact List.Sublist.cons₂ r
      ((drop_duplicates_by_sublist k _).trans (List.filter_sublist rs))
termination_by l => l.length
decreasing_by
  simp only [List.length_cons]
  exact Nat.lt_succ_of_le (List.length_filter_le _ _)

/-- After `drop_duplicates(subset=key)` all keys are pairwise distinct. -/
theorem drop_duplicates_by_pairwise {ρ : Type} (k : ρ → Ident) :
    ∀ l : List ρ, (drop_duplicates_by k l).Pairwise (fun a b => k a ≠ k b)
  | [] => by simp [drop_duplicates_by]
  | r :: rs => by
    rw [drop_duplicates_by]
    refine List.Pairwise.cons (fun b hb => ?_) (drop_duplicates_by_pairwise k _)
    have hbf : b ∈ rs.filter (fun s => !decide (k s = k r)) :=
      (drop_duplicates_by_sublist k _).mem hb
    have := (List.mem_filter.1 hbf).2
    simp only [Bool.not_eq_true', decide_eq_false_iff_not] at this
    exact fun hrb => this hrb.symm
termination_by l => l.length
decreasing_by
  all_goals simp only [List.length_cons]
  all_goals exact Nat.lt_succ_of_le (List.length_filter_le _ _)

theorem filter_key_length_le_one {ρ : Type} (k : ρ → Ident) {l : List ρ}
    (h : l.Pairwise (fun a b => k a ≠ k b)) (x : Ident) :
    (l.filter (fun m => decide (k m = x))).length ≤ 1 := by
  induction l with
  | nil => simp
  | cons a l ih =>
    rcases List.pairwise_cons.1 h with ⟨ha, hl⟩
    by_cases hax : k a = x
    · have hnil : l.filter (fun m => decide (k m = x)) = [] := by
        apply List.filter_eq_nil_iff.2
        intro b hb
        simp only [decide_eq_true_eq]
        exact fun hbx => ha b hb (hax.trans hbx.symm)
      simp [List.filter_cons, hax, hnil]
    · simpa [List.filter_cons, hax] using ih hl

/-- C9: Edge Enrichment — marker metadata deduplicated by marker identity
(first occurrence kept) and restricted to markers of the edge list, then
left-joined onto the edges by marker identity — leaves the edge rows
unchanged in number, identity and order, even when the metadata source
contains duplicate marker identities. -/
theorem edge_enrichment_spec {ε μ : Type} (ke : ε → Ident) (km : μ → Ident)
    (E : List ε) (M : List μ) :
    (merge_left ke km (streamline_IDs ke km E (drop_duplicates_by km M)) E).map
        Prod.fst = E ∧
    (merge_left ke km (streamline_IDs ke km E (drop_duplicates_by km M)) E).length =
      E.length := by
  have hpw : (streamline_IDs ke km E (drop_duplicates_by km M)).Pairwise
      (fun a b => km a ≠ km b) :=
    (drop_duplicates_by_pairwise km M).sublist
      (streamline_sublist ke km E (drop_duplicates_by km M))
  have h1 := merge_left_map_fst ke km
    (streamline_IDs ke km E (drop_duplicates_by km M)) E
    (fun x => filter_key_length_le_one km hpw x)
  have h2 := congrArg List.length h1
  rw [List.length_map] at h2
  exact ⟨h1, h2⟩

/-! ### Marker-degree filter and the retained-follower count
(spec §4.7, notebook section "2. Filter markers to have at least 20
french followers") -/

/-- An enriched edge row: the (marker, follower) pair with the merged
marker metadata (`none` when the left join found no metadata row). -/
abbrev EnrRow := Edge × Option Cat

/-- An enriched edge row carrying the derived `french_followers` column. -/
abbrev FFRow := EnrRow × Nat

def markerOfEnr (r : EnrRow) : Ident := r.1.marker

def markerOfFF (r : FFRow) : Ident := r.1.1.marker

def followerOfFF (r : FFRow) : Ident := r.1.1.follower

/-- Notebook cell: `french_edgelist['french_followers'] =
french_edgelist.groupby('marker_id')['marker_id'].transform('size')` —
every row receives the number of rows sharing its marker. -/
def add_french_followers (FE : List EnrRow) : List FFRow :=
  FE.map (fun r => (r, keyCount markerOfEnr FE (markerOfEnr r)))

/-- Modelled from the spec: `utils2.min_french_followers(df, n)` is not in
the staged sources; §4.7 describes it: markers whose retained-follower
count — recomputed from the current edge collection — is below `n` are
dropped; the second component reports the removed markers. -/
def min_french_followers (E : List FFRow) (n : Nat) : List FFRow × List Ident :=
  (E.filter (fun r => decide (n ≤ keyCount markerOfFF E (markerOfFF r))),
   ((E.filter (fun r => decide (keyCount markerOfFF E (markerOfFF r) < n))).map
      markerOfFF).dedup)

/-- Notebook sequence for the final table `sorted_edgelist_12`: attach the
retained-follower counts, drop markers under 20, then reapply the
follower-degree filter (min 5 brands) exactly once. -/
def final_french_edgelist (FE : List EnrRow) : List FFRow :=
  degFilter followerOfFF 5 (min_french_followers (add_french_followers FE) 20).1

/-- Filtering by a predicate that depends only on the key, with the key of
`x` accepted, does not change the group size of `x`. -/
theorem keyCount_filter_eq {ρ : Type} (k : ρ → Ident) (q : ρ → Bool)
    (l : List ρ) (x : Ident) (hq : ∀ r, k r = x → q r = true) :
    keyCount k (l.filter q) x = keyCount k l x := by
  unfold keyCount
  rw [← List.countP_eq_length_filter, ← List.countP_eq_length_filter,
    List.countP_filter]
  apply List.countP_congr
  intro r _
  by_cases hrx : k r = x
  · simp [hrx, hq r hrx]
  · simp [hrx]

/-- Group sizes are preserved by a map that preserves the key. -/
theorem keyCount_map {ε ρ : Type} (g : ε → ρ) (k : ρ → Ident) (k' : ε → Ident)
    (hg : ∀ e, k (g e) = k' e) (l : List ε) (x : Ident) :
    keyCount k (l.map g) x = keyCount k' l x := by
  unfold keyCount
  rw [← List.countP_eq_length_filter, ← List.countP_eq_length_filter,
    List.countP_map]
  apply List.countP_congr
  intro r _
  simp [Function.comp, hg]

/-- C4 (amended): the derived retained-follower count is computed fresh on
the french edgelist — where it equals the marker's actual number of edges —
and stays exact through the marker-degree filter, which keeps or drops a
marker's rows wholesale; it is not recomputed after the subsequent
follower-degree filter reapplication (see the counterexample), so only the
collections up to and including the marker-degree filter carry an exact
count. -/
theorem french_followers_spec (FE : List EnrRow) (n : Nat) :
    (∀ r ∈ add_french_followers FE,
      r.2 = keyCount markerOfFF (add_french_followers FE) (markerOfFF r)) ∧
    (∀ r ∈ (min_french_followers (add_french_followers FE) n).1,
      r.2 = keyCount markerOfFF (min_french_followers (add_french_followers FE) n).1
        (markerOfFF r)) := by
  have hstored : ∀ r ∈ add_french_followers FE,
      r.2 = keyCount markerOfFF (add_french_followers FE) (markerOfFF r) := by
    intro r hr
    rcases List.mem_map.1 hr with ⟨s, _, rfl⟩
    show keyCount markerOfEnr FE (markerOfEnr s) =
      keyCount markerOfFF (add_french_followers FE) (markerOfEnr s)
    rw [add_french_followers,
      keyCount_map (fun r => (r, keyCount markerOfEnr FE (markerOfEnr r)))
        markerOfFF markerOfEnr (fun e => rfl)]
  refine ⟨hstored, fun r hr => ?_⟩
  have hr2 := List.mem_filter.1 hr
  have hcnt : keyCount markerOfFF (min_french_followers (add_french_followers FE) n).1
      (markerOfFF r) = keyCount markerOfFF (add_french_followers FE) (markerOfFF r) := by
    apply keyCount_filter_eq
    intro s hs
    simp only [hs]
    exact hr2.2
  rw [hcnt]
  exact hstored r hr2.1

/-! #### Concrete collection separating the stored and the actual count

Markers 100–104; followers 0–17 follow all five markers, followers 50 and
51 follow only marker 100, followers 60 and 61 follow markers 101–104.
Every marker starts with exactly 20 retained followers, so the
marker-degree filter (threshold 20) keeps everything; the follower-degree
filter (minimum 5) then removes followers 50, 51 (degree 1) and 60, 61
(degree 4), leaving every marker with 18 actual edges while the stored
count still says 20. -/
def cexEdges : List Edge :=
  ((List.range 18).map (fun i => (List.range 5).map (fun m => Edge.mk (100 + m) i))).flatten
    ++ [Edge.mk 100 50, Edge.mk 100 51]
    ++ ((List.range 4).map (fun m => Edge.mk (101 + m) 60))
    ++ ((List.range 4).map (fun m => Edge.mk (101 + m) 61))

def cexFE : List EnrRow := cexEdges.map (fun e => (e, (none : Option Cat)))

set_option maxRecDepth 20000 in
/-- C4 counterexample: in the final emitted edge collection (after the
follower-degree filter is reapplied) the stored retained-follower count of
a marker no longer equals its actual number of edges. -/
theorem french_followers_stale_cex :
    ¬ (∀ r ∈ final_french_edgelist cexFE,
        r.2 = keyCount markerOfFF (final_french_edgelist cexFE) (markerOfFF r)) := by
  decide

/-- Spec §8 scenario: retained-follower counts [25, 15, 30] with threshold
20 drop exactly the marker with count 15 (marker 2 here), and followers are
then re-evaluated by the follower-degree pass. -/
theorem min_french_followers_scenario :
    (min_french_followers (add_french_followers
      (((List.range 25).map (fun i => ((Edge.mk 1 i, none) : EnrRow)))
        ++ ((List.range 15).map (fun i => ((Edge.mk 2 (100 + i), none) : EnrRow)))
        ++ ((List.range 30).map (fun i => ((Edge.mk 3 (200 + i), none) : EnrRow)))))
      20).2 = [2] := by
  decide

set_option maxRecDepth 20000 in
/-- C5: after the marker-degree filter (retained-follower threshold 20) the
follower-degree filter (minimum 5 brands) is reapplied exactly once: a
follower all of whose edges went to dropped markers is re-evaluated and
removed by that pass (first conjunct), the pass is a genuine re-application
of the minimum-brand rule (second conjunct), but it is one extra pass and
not an iteration to a fixed point — re-running the marker-degree filter on
the concrete final collection of `cexFE` would remove further rows (third
conjunct). -/
theorem convergence_pass_spec (FE : List EnrRow) (f : Ident) :
    ((∀ r ∈ add_french_followers FE, followerOfFF r = f →
        keyCount markerOfFF (add_french_followers FE) (markerOfFF r) < 20) →
      f ∉ (final_french_edgelist FE).map followerOfFF) ∧
    (∀ r ∈ final_french_edgelist FE,
      5 ≤ keyCount followerOfFF
        (min_french_followers (add_french_followers FE) 20).1.dedup (followerOfFF r)) ∧
    (min_french_followers (add_french_followers
        ((final_french_edgelist cexFE).map Prod.fst)) 20).1 ≠
      add_french_followers ((final_french_edgelist cexFE).map Prod.fst) := by
  refine ⟨fun hall hf => ?_, fun r hr => ((mem_degFilter_iff followerOfFF).1 hr).2, ?_⟩
  · rcases List.mem_map.1 hf with ⟨r, hr, rfl⟩
    have hr1 : r ∈ (min_french_followers (add_french_followers FE) 20).1 :=
      List.mem_dedup.1 ((mem_degFilter_iff followerOfFF).1 hr).1
    have hr2 := List.mem_filter.1 hr1
    have hge : 20 ≤ keyCount markerOfFF (add_french_followers FE) (markerOfFF r) := by
      simpa using hr2.2
    exact Nat.not_le.2 (hall r hr2.1 rfl) hge
  · decide

set_option maxRecDepth 20000 in
/-- C10: in the final emitted edge table every surviving follower follows
at least 5 markers — the follower-degree filter is the last degree filter
and keeps a retained follower's rows wholesale — but the marker
retained-follower threshold of 20 is not re-established afterwards: on the
concrete collection `cexFE` the final table contains markers whose actual
retained-follower count is 18 < 20. -/
theorem final_edgelist_degrees :
    (∀ (FE : List EnrRow), ∀ r ∈ final_french_edgelist FE,
      5 ≤ keyCount followerOfFF (final_french_edgelist FE) (followerOfFF r)) ∧
    (∃ r ∈ final_french_edgelist cexFE,
      keyCount markerOfFF (final_french_edgelist cexFE) (markerOfFF r) < 20) := by
  constructor
  · intro FE r hr
    rcases (mem_degFilter_iff followerOfFF).1 hr with ⟨hmem, hdeg⟩
    have hcnt : keyCount followerOfFF (final_french_edgelist FE) (followerOfFF r) =
        keyCount followerOfFF
          (min_french_followers (add_french_followers FE) 20).1.dedup (followerOfFF r) := by
      apply keyCount_filter_eq
      intro s hs
      simp only [hs]
      exact decide_eq_true hdeg
    rw [hcnt]
    exact hdeg
  · decide

/-! ### The notebook pipeline end to end

Stage names follow the notebook's dataframe names.  `E0` is the raw edge
list, `B0` the raw follower-bio table, `cats` the marker-metadata table,
`d` the language-detector oracle and `cities` the gazetteer.  The
`sort_values` cell only permutes rows and is omitted: no property below
depends on row order across that cell. -/

/-- Source: `markers_followers.drop_duplicates(keep='first')`. -/
def markers_followers (E0 : List Edge) : List Edge := E0.dedup

/-- Source: `utils2.filter_followers(markers_followers, 'follower_id', 5)`. -/
def markers_followers_5 (E0 : List Edge) : List Edge :=
  filter_followers (markers_followers E0) 5

/-- Source: `utils2.streamline_IDs(source=markers_followers_5, df_tofilter=followers_bios,
column='follower_id')`. -/
def followers_bios_5 (E0 : List Edge) (B0 : List Bio) : List Bio :=
  streamline_IDs (fun e => e.follower) (fun b => b.follower_id)
    (markers_followers_5 E0) B0

/-- Source: `utils2.filter_by_tweets_and_followers(followers_bios_5, 25, 100)`. -/
def followers_bios_fullfilter (E0 : List Edge) (B0 : List Bio) : List Bio :=
  filter_by_tweets_and_followers (followers_bios_5 E0 B0) 25 100

/-- Source: `utils2.streamline_IDs(source=followers_bios_fullfilter,
df_tofilter=markers_followers_5, column='follower_id')`. -/
def markers_followers_fullfilter (E0 : List Edge) (B0 : List Bio) : List Edge :=
  streamline_IDs (fun b => b.follower_id) (fun e => e.follower)
    (followers_bios_fullfilter E0 B0) (markers_followers_5 E0)

/-- Source: `utils2.process_description(followers_bios_fullfilter, 'description')`. -/
def followers_bios_clean (E0 : List Edge) (B0 : List Bio) : List Bio :=
  process_description (followers_bios_fullfilter E0 B0)

/-- Source: `utils2.add_and_detect_language(follower_bios_copy,
'description_cleantext', seed=3)`. -/
def lang_table (d : Nat → List Char → Except Unit String)
    (E0 : List Edge) (B0 : List Bio) : List Bio :=
  add_and_detect_language d 3 (followers_bios_clean E0 B0)

/-- The location-classification cell writing `lang['country']`. -/
def lang_country (d : Nat → List Char → Except Unit String)
    (cities : List (List Char)) (E0 : List Edge) (B0 : List Bio) : List Bio :=
  assign_country_df cities (lang_table d E0 B0)

/-- Source: `bio_and_country = lang[(lang['language']=='fr') &
(lang['country']=='France')]`: the french-bio table. -/
def bio_and_country (d : Nat → List Char → Except Unit String)
    (cities : List (List Char)) (E0 : List Edge) (B0 : List Bio) : List Bio :=
  (lang_country d cities E0 B0).filter
    (fun b => decide (b.language = some "fr") && b.country)

/-- Source: `cat_id.drop_duplicates(subset='marker_id')` followed by
`utils2.streamline_IDs(edgelist, cat_id, 'marker_id')`. -/
def cat_id (E0 : List Edge) (B0 : List Bio) (cats : List Cat) : List Cat :=
  streamline_IDs (fun e => e.marker) (fun c => c.marker_id)
    (markers_followers_fullfilter E0 B0)
    (drop_duplicates_by (fun c => c.marker_id) cats)

/-- Source: `edgelist.merge(cat_id[['marker_id','twitter_name','type','followers']],
on='marker_id', how='left')`: the enriched (full) edge list. -/
def full_edgelist (E0 : List Edge) (B0 : List Bio) (cats : List Cat) : List EnrRow :=
  merge_left (fun e => e.marker) (fun c => c.marker_id)
    (cat_id E0 B0 cats) (markers_followers_fullfilter E0 B0)

/-- Source: `utils2.streamline_IDs(source=french_bios, df_tofilter=edgelist,
column='follower_id')`: the french edge list. -/
def french_edgelist (d : Nat → List Char → Except Unit String)
    (cities : List (List Char)) (E0 : List Edge) (B0 : List Bio)
    (cats : List Cat) : List EnrRow :=
  streamline_IDs (fun b => b.follower_id) (fun r : EnrRow => r.1.follower)
    (bio_and_country d cities E0 B0) (full_edgelist E0 B0 cats)

/-- Source: `sorted_edgelist_12`: the final edge table, after the marker threshold
of 20 and the reapplied follower-degree filter. -/
def sorted_edgelist_12 (d : Nat → List Char → Except Unit String)
    (cities : List (List Char)) (E0 : List Edge) (B0 : List Bio)
    (cats : List Cat) : List FFRow :=
  final_french_edgelist (french_edgelist d cities E0 B0 cats)

/-- Source: `utils2.streamline_IDs(source=sorted_edgelist_12, df_tofilter=french_bios,
column='follower_id')`: the final bio table. -/
def french_bios_updated (d : Nat → List Char → Except Unit String)
    (cities : List (List Char)) (E0 : List Edge) (B0 : List Bio)
    (cats : List Cat) : List Bio :=
  streamline_IDs followerOfFF (fun b => b.follower_id)
    (sorted_edgelist_12 d cities E0 B0 cats) (bio_and_country d cities E0 B0)

/-! #### Identity-set bookkeeping for the synchronisation invariant -/

/-- The set of identities a table references through column `k`
(what `utils2.compare_column_values` compares). -/
def ids_of {ρ : Type} (k : ρ → Ident) (l : List ρ) : Finset Ident :=
  (l.map k).toFinset

theorem mem_ids_of {ρ : Type} (k : ρ → Ident) (l : List ρ) (x : Ident) :
    x ∈ ids_of k l ↔ ∃ r ∈ l, k r = x := by
  simp [ids_of, List.mem_toFinset, List.mem_map]

/-- Synchronising intersects the dependent identity set with the source's. -/
theorem ids_of_streamline {σ ρ : Type} (f : σ → Ident) (g : ρ → Ident)
    (S : List σ) (D : List ρ) :
    ids_of g (streamline_IDs f g S D) = ids_of g D ∩ ids_of f S := by
  ext x
  simp only [mem_ids_of, Finset.mem_inter, mem_streamline_iff]
  constructor
  · rintro ⟨r, ⟨hrD, hrS⟩, rfl⟩
    rcases List.mem_map.1 hrS with ⟨s, hs, hgs⟩
    exact ⟨⟨r, hrD, rfl⟩, s, hs, hgs⟩
  · rintro ⟨⟨r, hrD, rfl⟩, s, hs, hgs⟩
    exact ⟨r, ⟨hrD, List.mem_map.2 ⟨s, hs, hgs⟩⟩, rfl⟩

/-- When the source's identities all occur in the dependent table, the
synchronised dependent table's identity set equals the source's exactly. -/
theorem ids_of_streamline_eq {σ ρ : Type} (f : σ → Ident) (g : ρ → Ident)
    {S : List σ} {D : List ρ} (h : ids_of f S ⊆ ids_of g D) :
    ids_of g (streamline_IDs f g S D) = ids_of f S := by
  rw [ids_of_streamline]
  exact Finset.inter_eq_right.2 h

theorem ids_of_subset_of_sublist {ρ : Type} (k : ρ → Ident) {l₁ l₂ : List ρ}
    (h : l₁.Sublist l₂) : ids_of k l₁ ⊆ ids_of k l₂ := by
  intro x hx
  rcases (mem_ids_of k l₁ x).1 hx with ⟨r, hr, rfl⟩
  exact (mem_ids_of k l₂ (k r)).2 ⟨r, h.mem hr, rfl⟩

theorem ids_of_filter_subset {ρ : Type} (k : ρ → Ident) (p : ρ → Bool)
    (l : List ρ) : ids_of k (l.filter p) ⊆ ids_of k l :=
  ids_of_subset_of_sublist k (List.filter_sublist l)

theorem ids_of_dedup {ρ : Type} [DecidableEq ρ] (k : ρ → Ident) (l : List ρ) :
    ids_of k l.dedup = ids_of k l := by
  ext x
  simp only [mem_ids_of, List.mem_dedup]

theorem ids_of_degFilter_subset {ρ : Type} [DecidableEq ρ] (k' k : ρ → Ident)
    (t : Nat) (E : List ρ) : ids_of k' (degFilter k t E) ⊆ ids_of k' E := by
  intro x hx
  rw [← ids_of_dedup k' E]
  exact ids_of_filter_subset k' _ E.dedup hx

/-- A row map preserving the identity column preserves the identity set. -/
theorem ids_of_map {ε ρ : Type} (g : ε → ρ) (k : ρ → Ident) (k' : ε → Ident)
    (hg : ∀ e, k (g e) = k' e) (l : List ε) :
    ids_of k (l.map g) = ids_of k' l := by
  ext x
  simp only [mem_ids_of, List.mem_map]
  constructor
  · rintro ⟨r, ⟨e, he, rfl⟩, rfl⟩
    exact ⟨e, he, (hg e).symm⟩
  · rintro ⟨e, he, hke⟩
    exact ⟨g e, ⟨e, he, rfl⟩, (hg e).trans hke⟩

/-- Source: `process_description` only rewrites text columns: follower ids kept. -/
theorem ids_of_process_description (B : List Bio) :
    ids_of (fun b => b.follower_id) (process_description B) =
      ids_of (fun b => b.follower_id) B := by
  rw [process_description]
  exact ids_of_map
    (fun b : Bio => { b with description_cleantext := clean_description b.description })
    (fun b : Bio => b.follower_id) (fun b : Bio => b.follower_id) (fun _ => rfl) B

/-- Source: `add_and_detect_language` only writes the language column: ids kept. -/
theorem ids_of_add_language (d : Nat → List Char → Except Unit String)
    (seed : Nat) (B : List Bio) :
    ids_of (fun b => b.follower_id) (add_and_detect_language d seed B) =
      ids_of (fun b => b.follower_id) B := by
  rw [add_and_detect_language]
  exact ids_of_map
    (fun b : Bio =>
      { b with language := some (detect_language d seed b.description_cleantext) })
    (fun b : Bio => b.follower_id) (fun b : Bio => b.follower_id) (fun _ => rfl) B

/-- Source: `assign_country_df` only writes the country column: ids kept. -/
theorem ids_of_assign_country (cities : List (List Char)) (B : List Bio) :
    ids_of (fun b => b.follower_id) (assign_country_df cities B) =
      ids_of (fun b => b.follower_id) B := by
  rw [assign_country_df]
  exact ids_of_map
    (fun b : Bio => { b with country := location_flag cities b.location })
    (fun b : Bio => b.follower_id) (fun b : Bio => b.follower_id) (fun _ => rfl) B

/-- Attaching the retained-follower count column keeps the follower ids. -/
theorem ids_of_add_french_followers (FE : List EnrRow) :
    ids_of followerOfFF (add_french_followers FE) =
      ids_of (fun r : EnrRow => r.1.follower) FE := by
  rw [add_french_followers]
  exact ids_of_map
    (fun r : EnrRow => (r, keyCount markerOfEnr FE (markerOfEnr r)))
    followerOfFF (fun r : EnrRow => r.1.follower) (fun _ => rfl) FE

/-- The left join behind the full edge list preserves the follower identity
set (its metadata side has pairwise-distinct marker keys). -/
theorem ids_of_full_edgelist (E0 : List Edge) (B0 : List Bio) (cats : List Cat) :
    ids_of (fun r : EnrRow => r.1.follower) (full_edgelist E0 B0 cats) =
      ids_of (fun e => e.follower) (markers_followers_fullfilter E0 B0) := by
  have hpw : (cat_id E0 B0 cats).Pairwise (fun a b => a.marker_id ≠ b.marker_id) :=
    (drop_duplicates_by_pairwise (fun c : Cat => c.marker_id) cats).sublist
      (streamline_sublist (fun e : Edge => e.marker) (fun c : Cat => c.marker_id)
        (markers_followers_fullfilter E0 B0)
        (drop_duplicates_by (fun c : Cat => c.marker_id) cats))
  have h1 := merge_left_map_fst (fun e : Edge => e.marker) (fun c : Cat => c.marker_id)
    (cat_id E0 B0 cats) (markers_followers_fullfilter E0 B0)
    (fun x => filter_key_length_le_one (fun c : Cat => c.marker_id) hpw x)
  have h2 : ids_of (fun r : EnrRow => r.1.follower) (full_edgelist E0 B0 cats) =
      ids_of (fun e : Edge => e.follower)
        ((full_edgelist E0 B0 cats).map Prod.fst) :=
    (ids_of_map Prod.fst (fun e : Edge => e.follower)
      (fun r : EnrRow => r.1.follower) (fun r => rfl) _).symm
  rw [h2, full_edgelist, h1]

set_option maxHeartbeats 800000 in
/-- C3: with the raw tables' follower identity sets aligned (the notebook's
initial `compare_column_values` check), the follower identity set of the
dependent table equals the follower identity set of its synchronisation
source after every synchronisation point of the pipeline: after
`followers_bios_5`, after `markers_followers_fullfilter`, after
`french_edgelist` and after `french_bios_updated`. -/
theorem synchronization_invariant (E0 : List Edge) (B0 : List Bio)
    (cats : List Cat) (d : Nat → List Char → Except Unit String)
    (cities : List (List Char))
    (h : ids_of (fun e => e.follower) E0 ⊆ ids_of (fun b => b.follower_id) B0) :
    ids_of (fun b => b.follower_id) (followers_bios_5 E0 B0) =
      ids_of (fun e => e.follower) (markers_followers_5 E0) ∧
    ids_of (fun e => e.follower) (markers_followers_fullfilter E0 B0) =
      ids_of (fun b => b.follower_id) (followers_bios_fullfilter E0 B0) ∧
    ids_of (fun r : EnrRow => r.1.follower) (french_edgelist d cities E0 B0 cats) =
      ids_of (fun b => b.follower_id) (bio_and_country d cities E0 B0) ∧
    ids_of (fun b => b.follower_id) (french_bios_updated d cities E0 B0 cats) =
      ids_of followerOfFF (sorted_edgelist_12 d cities E0 B0 cats) := by
  have h5 : ids_of (fun e => e.follower) (markers_followers_5 E0) ⊆
      ids_of (fun b => b.follower_id) B0 := by
    intro x hx
    apply h
    rw [← ids_of_dedup (fun e => e.follower) E0]
    exact ids_of_degFilter_subset _ _ 5 (markers_followers E0) hx
  have eq1 : ids_of (fun b => b.follower_id) (followers_bios_5 E0 B0) =
      ids_of (fun e => e.follower) (markers_followers_5 E0) :=
    ids_of_streamline_eq _ _ h5
  have hff : ids_of (fun b => b.follower_id) (followers_bios_fullfilter E0 B0) ⊆
      ids_of (fun e => e.follower) (markers_followers_5 E0) := by
    intro x hx
    rw [← eq1]
    exact ids_of_filter_subset _ _ _ hx
  have eq2 : ids_of (fun e => e.follower) (markers_followers_fullfilter E0 B0) =
      ids_of (fun b => b.follower_id) (followers_bios_fullfilter E0 B0) :=
    ids_of_streamline_eq _ _ hff
  have hbio : ids_of (fun b => b.follower_id) (bio_and_country d cities E0 B0) ⊆
      ids_of (fun r : EnrRow => r.1.follower) (full_edgelist E0 B0 cats) := by
    intro x hx
    rw [ids_of_full_edgelist, eq2]
    have hx2 := ids_of_filter_subset (fun b => b.follower_id) _
      (lang_country d cities E0 B0) hx
    rw [lang_country, ids_of_assign_country, lang_table, ids_of_add_language,
      followers_bios_clean, ids_of_process_description] at hx2
    exact hx2
  have eq3 : ids_of (fun r : EnrRow => r.1.follower)
        (french_edgelist d cities E0 B0 cats) =
      ids_of (fun b => b.follower_id) (bio_and_country d cities E0 B0) :=
    ids_of_streamline_eq _ _ hbio
  have hfin : ids_of followerOfFF (sorted_edgelist_12 d cities E0 B0 cats) ⊆
      ids_of (fun b => b.follower_id) (bio_and_country d cities E0 B0) := by
    intro x hx
    rw [← eq3]
    have hx2 := ids_of_degFilter_subset followerOfFF followerOfFF 5 _ hx
    have hx3 := ids_of_filter_subset followerOfFF _
      (add_french_followers (french_edgelist d cities E0 B0 cats)) hx2
    rw [ids_of_add_french_followers] at hx3
    exact hx3
  have eq4 : ids_of (fun b => b.follower_id)
        (french_bios_updated d cities E0 B0 cats) =
      ids_of followerOfFF (sorted_edgelist_12 d cities E0 B0 cats) :=
    ids_of_streamline_eq _ _ hfin
  exact ⟨eq1, eq2, eq3, eq4⟩

/-- A tiny concrete pipeline input for the witness run. -/
def wE0 : List Edge := [Edge.mk 10 1]

def wB0 : List Bio := [{ follower_id := 1, tweets := some 200, followers := some 30 }]

def wDet : Nat → List Char → Except Unit String := fun _ _ => Except.ok "fr"

/-- Witness run of the synchronisation invariant on a concrete pipeline
input whose raw follower identity sets agree. -/
theorem synchronization_invariant_witness :
    (ids_of (fun e => e.follower) wE0 ⊆ ids_of (fun b => b.follower_id) wB0) ∧
    (ids_of (fun b => b.follower_id) (followers_bios_5 wE0 wB0) =
      ids_of (fun e => e.follower) (markers_followers_5 wE0) ∧
    ids_of (fun e => e.follower) (markers_followers_fullfilter wE0 wB0) =
      ids_of (fun b => b.follower_id) (followers_bios_fullfilter wE0 wB0) ∧
    ids_of (fun r : EnrRow => r.1.follower) (french_edgelist wDet [] wE0 wB0 []) =
      ids_of (fun b => b.follower_id) (bio_and_country wDet [] wE0 wB0) ∧
    ids_of (fun b => b.follower_id) (french_bios_updated wDet [] wE0 wB0 []) =
      ids_of followerOfFF (sorted_edgelist_12 wDet [] wE0 wB0 [])) :=
  ⟨by decide, synchronization_invariant wE0 wB0 [] wDet [] (by decide)⟩

end Wrangling2
